import Mathlib

/-!
Verification development for the Zoom Phone call-queue AHT dashboard
(`streamlit_app.py`, `streamlit_app2.py`, `streamlit_app_jp.py`).

The core pipeline is embedded shallowly:
  * `get_access_token`  — OAuth credential exchange (streamlit_app2.py:34-42);
  * `getToken`          — the `st.cache_data(ttl=3300)` caching wrapper,
                          modelled from the spec (the streamlit cache
                          implementation is an external library);
  * `list_call_queue_analytics` — the cursor-pagination loop
                          (streamlit_app.py:57-92), driven by a response
                          stream and a fuel bound so that non-termination
                          is observable as fuel exhaustion;
  * `_pick_first` / `build_aht_df` — alias resolution and normalization
                          (streamlit_app.py:97-135).

JSON values are modelled by `Value`; Python floats by `PyNum` (a rational
for finite doubles plus `inf`, `-inf`, `nan`; decimal literals are parsed
exactly, so binary-rounding of the IEEE double is not modelled).  Python
exceptions surface as `Except`.
-/

namespace ZoomAHT

/-- Euclidean algorithm with explicit fuel (kernel-reducible, unlike
`Nat.gcd`, which is defined by well-founded recursion). -/
def natGcdF : Nat → Nat → Nat → Nat
  | 0, _, b => b
  | fuel + 1, a, b => if a = 0 then b else natGcdF fuel (b % a) a

/-- Greatest common divisor (`natGcdF` with sufficient fuel). -/
def natGcd (a b : Nat) : Nat := natGcdF (a + b + 1) a b

/-- An exact rational in lowest terms, standing in for a finite IEEE
double.  All operations go through `mkFrac`, so values are reduced by
construction and structural equality is value equality. -/
structure Frac where
  num : Int
  den : Nat
deriving DecidableEq, Repr

/-- Build a reduced fraction from a numerator and a positive denominator. -/
def mkFrac (n : Int) (d : Nat) : Frac :=
  if d = 0 then ⟨0, 1⟩
  else
    let g := natGcd n.natAbs d
    ⟨n / (g : Int), d / g⟩

/-- Fraction from a natural number. -/
def Frac.ofNat (n : Nat) : Frac := ⟨n, 1⟩

/-- Negation (keeps lowest terms). -/
def fneg (a : Frac) : Frac := ⟨-a.num, a.den⟩

/-- Addition. -/
def fadd (a b : Frac) : Frac :=
  mkFrac (a.num * b.den + b.num * a.den) (a.den * b.den)

/-- Multiplication. -/
def fmul (a b : Frac) : Frac :=
  mkFrac (a.num * b.num) (a.den * b.den)

/-- Division (callers never divide by zero; zero maps to zero). -/
def fdivF (a b : Frac) : Frac :=
  if b.num < 0 then mkFrac (-(a.num * b.den)) (a.den * (-b.num).toNat)
  else mkFrac (a.num * b.den) (a.den * b.num.toNat)

/-- Strict comparison (denominators are positive). -/
def flt (a b : Frac) : Bool :=
  a.num * b.den < b.num * a.den

/-- Python numeric value: an exact rational stands in for a finite IEEE
double; the special values `inf`, `-inf` and `nan` are explicit. -/
inductive PyNum where
  | fin (q : Frac)
  | pinf
  | ninf
  | nan
deriving DecidableEq, Repr

/-- A Python/JSON value as produced by `r.json()`. -/
inductive Value where
  | vNull
  | vBool (b : Bool)
  | vNum (n : PyNum)
  | vStr (s : String)
  | vList (l : List Value)
  | vDict (d : List (String × Value))
deriving Repr

/-- A JSON object / Python dict, as an association list (keys unique). -/
abbrev PyDict := List (String × Value)

/-- Python dict lookup `d[k]` / `d.get(k)` as an option. -/
def dictGet : PyDict → String → Option Value
  | [], _ => none
  | (k, v) :: rest, key => if k = key then some v else dictGet rest key

/-- Python `d.get(k)`: the bound value, `None` when the key is absent. -/
def pyGet (d : PyDict) (k : String) : Value :=
  match dictGet d k with
  | some v => v
  | none => .vNull

/-- Python truthiness of a value (`bool(v)`). -/
def truthy : Value → Bool
  | .vNull => false
  | .vBool b => b
  | .vNum (.fin q) => if q.num = 0 then false else true
  | .vNum _ => true
  | .vStr s => if s = "" then false else true
  | .vList [] => false
  | .vList (_ :: _) => true
  | .vDict [] => false
  | .vDict (_ :: _) => true

/-- Python `a or b`: `a` when truthy, else `b`. -/
def pyOr (a b : Value) : Value :=
  if truthy a then a else b

/-- `_pick_first(d, *keys)` (streamlit_app.py:97-101): the value of the
first key that is present in `d` with a non-`None` value; `None` if no
key qualifies. -/
def pick_first (d : PyDict) : List String → Value
  | [] => .vNull
  | k :: ks =>
    match dictGet d k with
    | some .vNull => pick_first d ks
    | some v => v
    | none => pick_first d ks

/-- Is `c` an ASCII decimal digit? -/
def isDigit (c : Char) : Bool :=
  '0' ≤ c && c ≤ '9'

/-- Numeric value of a digit string (assumes all digits). -/
def digitsVal (cs : List Char) : Nat :=
  cs.foldl (fun acc c => acc * 10 + (c.toNat - '0'.toNat)) 0

/-- Split a character list at every occurrence of `sep`. -/
def splitOnChar (sep : Char) : List Char → List (List Char)
  | [] => [[]]
  | c :: rest =>
    match splitOnChar sep rest with
    | h :: t => if c = sep then [] :: h :: t else (c :: h) :: t
    | [] => if c = sep then [[], []] else [[c]]

/-- `10 ^ n` by structural recursion (kernel-friendly). -/
def pow10 : Nat → Nat
  | 0 => 1
  | n + 1 => 10 * pow10 n

/-- Parse the mantissa part of a Python float literal:
`digits`, `digits.`, `.digits` or `digits.digits`. -/
def parseDecimal (cs : List Char) : Option Frac :=
  match splitOnChar '.' cs with
  | [ip] =>
    if ip ≠ [] && ip.all isDigit then some (Frac.ofNat (digitsVal ip)) else none
  | [ip, fp] =>
    if (ip ≠ [] || fp ≠ []) && ip.all isDigit && fp.all isDigit then
      some (fadd (Frac.ofNat (digitsVal ip))
        (fdivF (Frac.ofNat (digitsVal fp)) (Frac.ofNat (pow10 fp.length))))
    else none
  | _ => none

/-- Parse the exponent part of a Python float literal (after `e`). -/
def parseExpPart (cs : List Char) : Option Int :=
  match cs with
  | '+' :: ds => if ds ≠ [] && ds.all isDigit then some (digitsVal ds : Nat) else none
  | '-' :: ds => if ds ≠ [] && ds.all isDigit then some (-(digitsVal ds : Nat) : Int) else none
  | ds => if ds ≠ [] && ds.all isDigit then some (digitsVal ds : Nat) else none

/-- Apply a decimal exponent to a rational. -/
def applyExp (m : Frac) (e : Int) : Frac :=
  if 0 ≤ e then fmul m (Frac.ofNat (pow10 e.toNat))
  else fdivF m (Frac.ofNat (pow10 (-e).toNat))

/-- Parse an unsigned, lower-cased Python float literal. -/
def parseUnsigned (cs : List Char) : Option PyNum :=
  if cs = "inf".data || cs = "infinity".data then some .pinf
  else if cs = "nan".data then some .nan
  else
    match splitOnChar 'e' cs with
    | [m] => (parseDecimal m).map .fin
    | [m, e] =>
      match parseDecimal m, parseExpPart e with
      | some mv, some ev => some (.fin (applyExp mv ev))
      | _, _ => none
    | _ => none

/-- Negate a Python float (`-nan` is `nan`). -/
def pyNeg : PyNum → PyNum
  | .fin q => .fin (fneg q)
  | .pinf => .ninf
  | .ninf => .pinf
  | .nan => .nan

/-- Is `c` whitespace for the purpose of `float(str)` stripping? -/
def isSpaceChar (c : Char) : Bool :=
  c = ' ' || c = '\t' || c = '\n' || c = '\r' || c.toNat = 11 || c.toNat = 12

/-- Strip whitespace from both ends of a character list. -/
def trimChars (cs : List Char) : List Char :=
  ((cs.dropWhile isSpaceChar).reverse.dropWhile isSpaceChar).reverse

/-- ASCII lower-casing of one character. -/
def lowerChar (c : Char) : Char :=
  if 'A' ≤ c && c ≤ 'Z' then Char.ofNat (c.toNat + 32) else c

/-- Python `float(s)` on a string: optional sign, decimal/exponent
notation, `inf`/`infinity`/`nan` (case-insensitive, surrounding
whitespace stripped).  Underscore digit separators are not modelled. -/
def parseFloat (s : String) : Option PyNum :=
  match (trimChars s.data).map lowerChar with
  | '+' :: rest => parseUnsigned rest
  | '-' :: rest => (parseUnsigned rest).map pyNeg
  | cs => parseUnsigned cs

/-- Python `float(v)` as an option: `none` models the
`ValueError`/`TypeError` that the source catches. -/
def pyFloat : Value → Option PyNum
  | .vNum n => some n
  | .vBool b => some (.fin (Frac.ofNat (if b then 1 else 0)))
  | .vStr s => parseFloat s
  | _ => none

/-- Python `round(q)` on a finite float: round half to even, to an
integer.  `r` is the remainder of the floor division, in `[0, den)`. -/
def pyRoundEven (q : Frac) : Int :=
  let fl : Int := Int.fdiv q.num q.den
  let r : Int := q.num - fl * q.den
  if 2 * r < (q.den : Int) then fl
  else if (q.den : Int) < 2 * r then fl + 1
  else if fl % 2 = 0 then fl else fl + 1

/-- Python `round(x, 2)` on a finite float, idealized to exact decimal
rounding (half to even at the second decimal). -/
def pyRound2 (q : Frac) : Frac :=
  mkFrac (pyRoundEven (fmul q (Frac.ofNat 100))) 100

/-- Divide a Python float by a positive finite constant. -/
def pyDivConst (n : PyNum) (c : Nat) : PyNum :=
  match n with
  | .fin q => .fin (fdivF q (Frac.ofNat c))
  | .pinf => .pinf
  | .ninf => .ninf
  | .nan => .nan

/-- Python `round(x, 2)` lifted to special values (`inf`/`nan` are
returned unchanged by `float.__round__` with an `ndigits` argument). -/
def pyRound2Num : PyNum → PyNum
  | .fin q => .fin (pyRound2 q)
  | n => n

/-- Python exceptions that can escape the normalizer. -/
inductive PyExc where
  | overflowError
  | typeError
deriving DecidableEq, Repr

/-- Zero-padded width-2 integer formatting, `f"{n:02d}"` (the sign counts
toward the width). -/
def fmt02 (n : Int) : String :=
  if 0 ≤ n ∧ n < 10 then "0" ++ toString n else toString n

/-- `_fmt_hms(sec)` (streamlit_app.py:103-109).  `None` and `nan` map to
`None` via `pd.isna`; an infinite value reaches `int(round(sec))`, where
`round` raises `OverflowError`; a finite value is rounded half-to-even
and rendered as `HH:MM:SS` with Python floor `divmod`. -/
def fmt_hms : Option PyNum → Except PyExc (Option String)
  | none => .ok none
  | some .nan => .ok none
  | some .pinf => .error .overflowError
  | some .ninf => .error .overflowError
  | some (.fin q) =>
    let sec : Int := pyRoundEven q
    let h : Int := Int.fdiv sec 3600
    let rem : Int := Int.fmod sec 3600
    let m : Int := Int.fdiv rem 60
    let s : Int := Int.fmod rem 60
    .ok (some (fmt02 h ++ ":" ++ fmt02 m ++ ":" ++ fmt02 s))

/-- One normalized row of the AHT dataframe. -/
structure Row where
  queue_id : Value
  queue_name : Value
  avg_handle_time_sec : Option PyNum
  avg_handle_time_min : Option PyNum
  avg_handle_time_hms : Option String
deriving Repr

/-- Alias list for the queue id (streamlit_app.py:117). -/
def idAliases : List String := ["queue_id", "call_queue_id", "id"]

/-- Alias list for the handle time (streamlit_app.py:119). -/
def ahtAliases : List String := ["avg_handle_time", "average_handle_time", "avg_handle_time_seconds"]

/-- The queue-name expression (streamlit_app.py:118):
`_pick_first(it,"queue_name","name") or (_pick_first(it,"call_queue_name") or "Unknown Queue")`. -/
def qNameOf (it : PyDict) : Value :=
  pyOr (pick_first it ["queue_name", "name"])
    (pyOr (pick_first it ["call_queue_name"]) (.vStr "Unknown Queue"))

/-- The handle-time resolution (streamlit_app.py:119-123): pick the first
present non-null alias, coerce with `float(...)`, degrade to `None` on
coercion failure. -/
def resolveAht (it : PyDict) : Option PyNum :=
  match pick_first it ahtAliases with
  | .vNull => none
  | v => pyFloat v

/-- The row built for one record, before the exception check: field
values exactly as the dict literal at streamlit_app.py:125-131 computes
them (`avg_handle_time_hms` is meaningful only when `fmt_hms` succeeds). -/
def rowCore (it : PyDict) : Row :=
  let aht := resolveAht it
  { queue_id := pick_first it idAliases
    queue_name := qNameOf it
    avg_handle_time_sec := aht
    avg_handle_time_min := aht.map (fun n => pyRound2Num (pyDivConst n 60))
    avg_handle_time_hms :=
      match fmt_hms aht with
      | .ok o => o
      | .error _ => none }

/-- Processing of one record inside the loop of `build_aht_df`: the only
raising subexpression is `_fmt_hms` (on an infinite handle time). -/
def mkRow (it : PyDict) : Except PyExc Row :=
  match fmt_hms (resolveAht it) with
  | .error e => .error e
  | .ok _ => .ok (rowCore it)

/-- Monadic map over a list for `Except`: the per-record loop body, with
the first raised exception propagating. -/
def mapExcept (f : α → Except ε β) : List α → Except ε (List β)
  | [] => .ok []
  | a :: as =>
    match f a with
    | .error e => .error e
    | .ok b =>
      match mapExcept f as with
      | .error e => .error e
      | .ok bs => .ok (b :: bs)

/-- Does `df.dropna(subset=["avg_handle_time_sec"])` keep this row?
`None` and `nan` are dropped; finite and infinite values are kept. -/
def keepRow (r : Row) : Bool :=
  match r.avg_handle_time_sec with
  | some (.fin _) => true
  | some .pinf => true
  | some .ninf => true
  | _ => false

/-- `build_aht_df(items)` (streamlit_app.py:111-135): per-record
normalization followed by dropping rows without a numeric handle time.
Input records are mappings (`RawRecord`); a raised Python exception is
an `Except.error`. -/
def build_aht_df (items : List PyDict) : Except PyExc (List Row) :=
  match mapExcept mkRow items with
  | .error e => .error e
  | .ok rows => .ok (rows.filter keepRow)

/-- Errors surfaced by the acquisition pipeline: the credentials guard
(`RuntimeError`, the AuthError of the spec), `requests.HTTPError` from
`raise_for_status` (the ApiError of the spec, carrying status and body),
a missing JSON key, or a propagated Python exception. -/
inductive ZoomError where
  | authError (msg : String)
  | apiError (status : Nat) (body : PyDict)
  | keyError (key : String)
  | pyError (e : PyExc)
deriving Repr

/-- `requests.Response.raise_for_status` raises exactly for status codes
in `[400, 600)` (client and server errors); 1xx/3xx codes pass. -/
def raisesForStatus (s : Nat) : Bool :=
  400 ≤ s && s < 600

/-- Base64 alphabet lookup. -/
def b64Char (n : Nat) : Char :=
  "ABCDEFGHIJKLMNOPQRSTUVWXYZabcdefghijklmnopqrstuvwxyz0123456789+/".data.getD n '='

/-- Base64-encode a byte list, three bytes to four characters, with
`=` padding. -/
def b64Go : List Nat → String
  | a :: b :: c :: rest =>
    String.mk [b64Char (a / 4), b64Char (a % 4 * 16 + b / 16),
               b64Char (b % 16 * 4 + c / 64), b64Char (c % 64)] ++ b64Go rest
  | [a, b] => String.mk [b64Char (a / 4), b64Char (a % 4 * 16 + b / 16), b64Char (b % 16 * 4), '=']
  | [a] => String.mk [b64Char (a / 4), b64Char (a % 4 * 16), '=', '=']
  | [] => ""

/-- UTF-8 encoding of one character (`str.encode()`). -/
def utf8Bytes (c : Char) : List Nat :=
  let n := c.toNat
  if n < 0x80 then [n]
  else if n < 0x800 then [0xC0 + n / 64, 0x80 + n % 64]
  else if n < 0x10000 then [0xE0 + n / 4096, 0x80 + n / 64 % 64, 0x80 + n % 64]
  else [0xF0 + n / 262144, 0x80 + n / 4096 % 64, 0x80 + n / 64 % 64, 0x80 + n % 64]

/-- `base64.b64encode(s.encode()).decode()`. -/
def b64encode (s : String) : String :=
  b64Go (s.data.flatMap utf8Bytes)

/-- The token-endpoint POST request (headers and query parameters that
the source sends to `TOKEN_URL`). -/
structure TokenReq where
  authHeader : String
  grant_type : String
  account_id : String
deriving DecidableEq, Repr

/-- An HTTP response: status code and parsed JSON body. -/
structure PageResp where
  status : Nat
  body : PyDict
deriving Repr

/-- `get_access_token(account_id, client_id, client_secret)`
(streamlit_app2.py:34-42), with the HTTP POST as an oracle.  Returns the
outcome together with the list of token-endpoint requests issued: the
credentials guard raises `RuntimeError` before any request is built. -/
def get_access_token (account_id client_id client_secret : String)
    (post : TokenReq → PageResp) : Except ZoomError Value × List TokenReq :=
  if account_id = "" || client_id = "" || client_secret = "" then
    (.error (.authError "Missing Zoom credentials"), [])
  else
    let req : TokenReq :=
      { authHeader := "Basic " ++ b64encode (client_id ++ ":" ++ client_secret)
        grant_type := "account_credentials"
        account_id := account_id }
    let r := post req
    if raisesForStatus r.status then (.error (.apiError r.status r.body), [req])
    else
      match dictGet r.body "access_token" with
      | some v => (.ok v, [req])
      | none => (.error (.keyError "access_token"), [req])

/-- A credentials tuple (the `st.cache_data` cache key). -/
structure Creds where
  account_id : String
  client_id : String
  client_secret : String
deriving DecidableEq, Repr

/-- A cached OAuth token: exchanged value plus insertion time. -/
structure Token where
  value : Value
  issuedAt : Nat
deriving Repr

/-- A process-wide token cache: one entry per credentials tuple. -/
abbrev TokenCache := List (Creds × Token)

/-- Cache lookup keyed by the exact credentials tuple. -/
def lookupTok : TokenCache → Creds → Option Token
  | [], _ => none
  | (c, t) :: rest, key => if c = key then some t else lookupTok rest key

/-- Remove the entry for a credentials tuple. -/
def removeTok : TokenCache → Creds → TokenCache
  | [], _ => []
  | (c, t) :: rest, key => if c = key then removeTok rest key else (c, t) :: removeTok rest key

/-- The `st.cache_data` ttl, 3300 seconds (~55 minutes). -/
def tokenTTL : Nat := 3300

/-- Modelled from the spec: the `@st.cache_data(ttl=3300)` wrapper around
`get_access_token` (streamlit_app2.py:33) — the cache implementation
lives in the streamlit library, not in this repository.  Per spec §4.1:
look up a token keyed by the exact credentials tuple; if present and
`now < issuedAt + ttl`, return it with no network call; otherwise run
the exchange and on success store `{value, issuedAt := now}`.  The last
component reports whether a token-endpoint request was issued. -/
def getToken (c : Creds) (now : Nat) (post : TokenReq → PageResp)
    (cache : TokenCache) : Except ZoomError Token × TokenCache × Bool :=
  let fresh :=
    match get_access_token c.account_id c.client_id c.client_secret post with
    | (.error e, reqs) => (.error e, cache, !reqs.isEmpty)
    | (.ok v, _) =>
      let tok : Token := { value := v, issuedAt := now }
      (.ok tok, (c, tok) :: removeTok cache c, true)
  match lookupTok cache c with
  | some t => if now < t.issuedAt + tokenTTL then (.ok t, cache, false) else fresh
  | none => fresh

/-- Query parameters of one page request
(streamlit_app.py:67-73): the dates, the clamped page size, and the
cursor (present only when the current token is truthy). -/
structure ReqParams where
  date_from : String
  date_to : String
  page_size : Int
  next_page_token : Option Value
deriving Repr

/-- The record-list extraction (streamlit_app.py:79-85):
`data.get("analytics") or data.get("queues") or data.get("list") or
data.get("call_queues") or []` — Python `or` chain, first truthy wins. -/
def extractValue (body : PyDict) : Value :=
  pyOr (pyGet body "analytics")
    (pyOr (pyGet body "queues")
      (pyOr (pyGet body "list")
        (pyOr (pyGet body "call_queues") (.vList []))))

/-- `items.extend(x)`: appending an iterable (list elements, string
characters, dict keys); a truthy non-iterable raises `TypeError`. -/
def extendItems (acc : List Value) : Value → Except PyExc (List Value)
  | .vList l => .ok (acc ++ l)
  | .vStr s => .ok (acc ++ s.data.map (fun ch => .vStr (String.mk [ch])))
  | .vDict d => .ok (acc ++ d.map (fun kv => .vStr kv.1))
  | _ => .error .typeError

/-- The pagination loop of `list_call_queue_analytics`
(streamlit_app.py:66-92), driven by the response stream `ps` (page `i`
of the provider) and a fuel bound.  Returns the trace of issued page
requests and the outcome: `none` when the fuel ran out before the loop
ended (the loop itself has no iteration bound), otherwise the
`HTTPError` from `raise_for_status`, a Python error from `extend`, or
the accumulated record list once a page carries no truthy cursor. -/
def fetchGo (ps : Nat → PageResp) (dfrom dto : String) (page_size : Int)
    (tok : Value) (acc : List Value) (i : Nat) :
    Nat → List ReqParams × Option (Except ZoomError (List Value))
  | 0 => ([], none)
  | fuel + 1 =>
    let req : ReqParams :=
      { date_from := dfrom, date_to := dto, page_size := min page_size 300
        next_page_token := if truthy tok then some tok else none }
    let r := ps i
    if raisesForStatus r.status then
      ([req], some (.error (.apiError r.status r.body)))
    else
      match extendItems acc (extractValue r.body) with
      | .error e => ([req], some (.error (.pyError e)))
      | .ok acc' =>
        let tok' := pyGet r.body "next_page_token"
        if truthy tok' then
          let rest := fetchGo ps dfrom dto page_size tok' acc' (i + 1) fuel
          (req :: rest.1, rest.2)
        else
          ([req], some (.ok acc'))

/-- `list_call_queue_analytics(date_from, date_to, page_size)`
(streamlit_app.py:57-92): run the pagination loop from a null cursor,
an empty accumulator and the first page. -/
def list_call_queue_analytics (ps : Nat → PageResp) (dfrom dto : String)
    (page_size : Int) (fuel : Nat) :
    List ReqParams × Option (Except ZoomError (List Value)) :=
  fetchGo ps dfrom dto page_size .vNull [] 0 fuel

/-- View the fetched items as mappings; a non-mapping item would raise
`TypeError` on key lookup inside the normalizer. -/
def toDicts : List Value → Except PyExc (List PyDict)
  | [] => .ok []
  | .vDict d :: rest =>
    match toDicts rest with
    | .ok ds => .ok (d :: ds)
    | .error e => .error e
  | _ :: _ => .error .typeError

/-- Normalization applied to the fetched items (records are mappings). -/
def buildFromValues (items : List Value) : Except ZoomError (List Row) :=
  match toDicts items with
  | .error e => .error (.pyError e)
  | .ok ds =>
    match build_aht_df ds with
    | .error e => .error (.pyError e)
    | .ok rows => .ok rows

/-- The orchestrator (spec §4.4): token acquisition, paginated fetch,
normalization, each failure propagating unchanged.  `none` when the
pagination fuel ran out. -/
def run (c : Creds) (now : Nat) (post : TokenReq → PageResp)
    (cache : TokenCache) (ps : Nat → PageResp) (dfrom dto : String)
    (page_size : Int) (fuel : Nat) : Option (Except ZoomError (List Row)) :=
  match (getToken c now post cache).1 with
  | .error e => some (.error e)
  | .ok _ =>
    match (list_call_queue_analytics ps dfrom dto page_size fuel).2 with
    | none => none
    | some (.error e) => some (.error e)
    | some (.ok items) => some (buildFromValues items)

/-- Bool-level check: is the value a non-empty string? -/
def isNonemptyStr : Value → Bool
  | .vStr "" => false
  | .vStr _ => true
  | _ => false

/-- A Python value from an optional float (`None` for absence). -/
def numToValue : Option PyNum → Value
  | none => .vNull
  | some n => .vNum n

/-- A Python value from an optional string (`None` for absence). -/
def strToValue : Option String → Value
  | none => .vNull
  | some s => .vStr s

/-- A normalized row viewed as a raw record again: the output field
names become the keys, as in the idempotence claim. -/
def rowToRaw (r : Row) : PyDict :=
  [("queue_id", r.queue_id), ("queue_name", r.queue_name),
   ("avg_handle_time_sec", numToValue r.avg_handle_time_sec),
   ("avg_handle_time_min", numToValue r.avg_handle_time_min),
   ("avg_handle_time_hms", strToValue r.avg_handle_time_hms)]

/-- The record list of one page as the loop extends it (pages carrying
a list under one of the aliased keys). -/
def pageItems (r : PageResp) : List Value :=
  match extractValue r.body with
  | .vList l => l
  | _ => []

/-- Concatenation of the record lists of pages `i, i+1, ..., i+n-1` in
retrieval order. -/
def pagesConcat (ps : Nat → PageResp) : Nat → Nat → List Value
  | _, 0 => []
  | i, n + 1 => pageItems (ps i) ++ pagesConcat ps (i + 1) n

/-! ## Helper lemmas -/

/-- `mkRow` only ever succeeds with the pure row. -/
theorem mkRow_ok_eq {it : PyDict} {r : Row} (h : mkRow it = .ok r) :
    r = rowCore it := by
  unfold mkRow at h
  cases hf : fmt_hms (resolveAht it) <;> rw [hf] at h <;> simp_all

/-- Characterization of a successful `build_aht_df`: the output is, in
order, the row of every input record whose handle time resolved to a
number that survives `dropna`. -/
theorem build_aht_df_ok_eq :
    ∀ (items : List PyDict) (rows : List Row), build_aht_df items = .ok rows →
      rows = (items.filter (fun it => keepRow (rowCore it))).map rowCore := by
  intro items
  induction items with
  | nil =>
    intro rows h
    simp [build_aht_df, mapExcept] at h
    simp [h.symm]
  | cons it rest ih =>
    intro rows h
    simp only [build_aht_df, mapExcept] at h
    cases hm : mkRow it with
    | error e => rw [hm] at h; simp at h
    | ok r =>
      rw [hm] at h
      cases hr : mapExcept mkRow rest with
      | error e => rw [hr] at h; simp at h
      | ok rs =>
        rw [hr] at h
        simp only at h
        have hrest : build_aht_df rest = .ok (rs.filter keepRow) := by
          simp [build_aht_df, hr]
        have ihr := ih (rs.filter keepRow) hrest
        have hrc : r = rowCore it := mkRow_ok_eq hm
        have hrows : rows = (r :: rs).filter keepRow := by
          cases h; rfl
        subst hrc
        rw [hrows, List.filter_cons, List.filter_cons]
        by_cases hk : keepRow (rowCore it) = true
        · simp [hk, ihr]
        · simp [hk, ihr]

/-- The queue-name fallback chain always produces a truthy value. -/
theorem truthy_qNameOf (it : PyDict) : truthy (qNameOf it) = true := by
  unfold qNameOf pyOr
  split
  · assumption
  · split
    · assumption
    · rfl

/-- Every page request the pagination loop issues carries
`page_size = min requested 300`. -/
theorem fetchGo_pageSize (ps : Nat → PageResp) (dfrom dto : String) (p : Int) :
    ∀ (fuel : Nat) (tok : Value) (acc : List Value) (i : Nat)
      (r : ReqParams), r ∈ (fetchGo ps dfrom dto p tok acc i fuel).1 →
      r.page_size = min p 300 := by
  intro fuel
  induction fuel with
  | zero =>
    intro tok acc i r h
    simp [fetchGo] at h
  | succ n ih =>
    intro tok acc i r h
    simp only [fetchGo] at h
    split at h
    · simp at h
      subst h
      rfl
    · split at h
      · simp at h
        subst h
        rfl
      · split at h
        · rcases List.mem_cons.mp h with rfl | hmem
          · rfl
          · exact ih _ _ _ r hmem
        · simp at h
          subst h
          rfl

/-! ## Claims -/

/-- C2: for every credentials tuple with at least one empty field,
`get_access_token` fails with the `AuthError` (`RuntimeError("Missing
Zoom credentials")`) and issues no token-endpoint POST. -/
theorem get_access_token_empty_creds (account_id client_id client_secret : String)
    (post : TokenReq → PageResp)
    (h : account_id = "" ∨ client_id = "" ∨ client_secret = "") :
    get_access_token account_id client_id client_secret post =
      (.error (.authError "Missing Zoom credentials"), []) := by
  unfold get_access_token
  rcases h with h | h | h <;> simp [h]

/-- Witness for C2 at a concrete empty `client_secret`. -/
theorem get_access_token_empty_creds_witness :
    get_access_token "acct" "cid" "" (fun _ => ⟨200, [("access_token", .vStr "T")]⟩) =
      (.error (.authError "Missing Zoom credentials"), []) :=
  get_access_token_empty_creds "acct" "cid" ""
    (fun _ => ⟨200, [("access_token", .vStr "T")]⟩) (Or.inr (Or.inr rfl))

/-- C6: with a requested page size of 500, every outgoing page request
carries `page_size = 300` (the `min(page_size, 300)` clamp). -/
theorem pageSize_500_clamped_to_300 (ps : Nat → PageResp) (dfrom dto : String)
    (fuel : Nat) (r : ReqParams)
    (h : r ∈ (list_call_queue_analytics ps dfrom dto 500 fuel).1) :
    r.page_size = 300 :=
  fetchGo_pageSize ps dfrom dto 500 fuel .vNull [] 0 r h

/-- Witness for C6: the sole request of a one-page fetch at requested
size 500 carries `page_size = 300`. -/
theorem pageSize_500_clamped_to_300_witness :
    (⟨"f", "t", 300, none⟩ : ReqParams).page_size = 300 :=
  pageSize_500_clamped_to_300 (fun _ => ⟨200, []⟩) "f" "t" 1 ⟨"f", "t", 300, none⟩
    (List.Mem.head _)

/-- C10: the outgoing `page_size` always equals `min requested 300`:
the clamp is one-sided, so requested values below 1 (0, negatives) are
passed through unchanged rather than raised or rejected. -/
theorem pageSize_clamped_from_above_only (ps : Nat → PageResp) (dfrom dto : String)
    (p : Int) (fuel : Nat) (r : ReqParams)
    (h : r ∈ (list_call_queue_analytics ps dfrom dto p fuel).1) :
    r.page_size = min p 300 :=
  fetchGo_pageSize ps dfrom dto p fuel .vNull [] 0 r h

/-- Witness for C10 at requested page size -5: the outgoing request
carries `page_size = -5`, the below-bound value passed through. -/
theorem pageSize_clamped_from_above_only_witness :
    (⟨"f", "t", -5, none⟩ : ReqParams).page_size = min (-5 : Int) 300 ∧
      min (-5 : Int) 300 = -5 :=
  ⟨pageSize_clamped_from_above_only (fun _ => ⟨200, []⟩) "f" "t" (-5) 1
    ⟨"f", "t", -5, none⟩ (List.Mem.head _), by decide⟩

/-- C9: `_pick_first` treats a key bound to `None` as absent: it
returns the value of the first alias that is both present and non-null,
returns `None` only when no alias qualifies, and accordingly a record
`{avg_handle_time: null, average_handle_time: 42}` normalizes to a
handle time of 42.0. -/
theorem pick_first_skips_null_values :
    (∀ (d : PyDict) (ks₁ : List String) (k : String) (ks₂ : List String) (v : Value),
      (∀ k' ∈ ks₁, dictGet d k' = none ∨ dictGet d k' = some .vNull) →
      dictGet d k = some v → v ≠ .vNull →
      pick_first d (ks₁ ++ k :: ks₂) = v) ∧
    (∀ (d : PyDict) (ks : List String),
      (∀ k ∈ ks, dictGet d k = none ∨ dictGet d k = some .vNull) →
      pick_first d ks = .vNull) ∧
    (build_aht_df [[("avg_handle_time", .vNull),
        ("average_handle_time", .vNum (.fin ⟨42, 1⟩))]]).toOption.map
      (List.map Row.avg_handle_time_sec) = some [some (.fin ⟨42, 1⟩)] := by
  refine ⟨?_, ?_, rfl⟩
  · intro d ks₁
    induction ks₁ with
    | nil =>
      intro k ks₂ v _ hk hv
      rw [List.nil_append]
      unfold pick_first
      rw [hk]
      cases v <;> first | exact absurd rfl hv | rfl
    | cons k' ks₁ ih =>
      intro k ks₂ v hnull hk hv
      have h1 := hnull k' (List.mem_cons_self _ _)
      rw [List.cons_append]
      unfold pick_first
      rcases h1 with h1 | h1 <;> rw [h1] <;>
        exact ih k ks₂ v (fun x hx => hnull x (List.mem_cons_of_mem _ hx)) hk hv
  · intro d ks
    induction ks with
    | nil => intro _; rfl
    | cons k ks ih =>
      intro hnull
      have h1 := hnull k (List.mem_cons_self _ _)
      unfold pick_first
      rcases h1 with h1 | h1 <;> rw [h1] <;>
        exact ih (fun x hx => hnull x (List.mem_cons_of_mem _ hx))

/-- Witness for C9: with `a` bound to null and `b` to 42, the first
present non-null alias is `b`. -/
theorem pick_first_skips_null_values_witness :
    pick_first [("a", .vNull), ("b", .vNum (.fin ⟨42, 1⟩))] ["a", "b"] =
      .vNum (.fin ⟨42, 1⟩) :=
  pick_first_skips_null_values.1 [("a", .vNull), ("b", .vNum (.fin ⟨42, 1⟩))]
    ["a"] "b" [] (.vNum (.fin ⟨42, 1⟩))
    (by intro k' hk'
        rw [List.mem_singleton] at hk'
        subst hk'
        exact Or.inr rfl)
    rfl
    (by intro h; cases h)

/-- C4 counterexample: a record whose `queue_name` field holds the
number 5 produces an output row whose queue name is the number 5 — a
truthy value, but not a string, refuting "queueName is a non-empty
string" as stated. -/
theorem queue_name_not_string_counterexample :
    (build_aht_df [[("queue_name", .vNum (.fin ⟨5, 1⟩)),
        ("avg_handle_time", .vNum (.fin ⟨10, 1⟩))]]).toOption.map
      (List.map (fun r => isNonemptyStr r.queue_name)) = some [false] := rfl

/-- C4 (amended): every output row's queue name is a truthy value — in
particular never null and never the empty string — because the fallback
chain ends in the fixed label "Unknown Queue"; but when the raw field
holds a truthy non-string, that value is copied unchanged. -/
theorem queue_name_never_null_or_empty (items : List PyDict) (rows : List Row)
    (h : build_aht_df items = .ok rows) :
    ∀ r ∈ rows, truthy r.queue_name = true ∧
      r.queue_name ≠ .vNull ∧ r.queue_name ≠ .vStr "" := by
  have hc := build_aht_df_ok_eq items rows h
  subst hc
  intro r hr
  rw [List.mem_map] at hr
  obtain ⟨it, _, rfl⟩ := hr
  refine ⟨truthy_qNameOf it, ?_, ?_⟩
  · intro hn
    have ht := truthy_qNameOf it
    rw [show qNameOf it = (rowCore it).queue_name from rfl, hn] at ht
    simp [truthy] at ht
  · intro hn
    have ht := truthy_qNameOf it
    rw [show qNameOf it = (rowCore it).queue_name from rfl, hn] at ht
    simp [truthy] at ht

/-- Witness for amended C4: the fallback label of a record with no name
fields is truthy, non-null and non-empty. -/
theorem queue_name_never_null_or_empty_witness :
    truthy (rowCore [("avg_handle_time", .vStr "125")]).queue_name = true ∧
      (rowCore [("avg_handle_time", .vStr "125")]).queue_name ≠ .vNull ∧
      (rowCore [("avg_handle_time", .vStr "125")]).queue_name ≠ .vStr "" :=
  queue_name_never_null_or_empty [[("avg_handle_time", .vStr "125")]]
    [rowCore [("avg_handle_time", .vStr "125")]] rfl
    (rowCore [("avg_handle_time", .vStr "125")]) (List.Mem.head _)

/-- C3 counterexample: a record whose handle time coerces to the float
`inf` makes `build_aht_df` raise `OverflowError` (from `int(round(sec))`
inside `_fmt_hms`), so the normalizer is not exception-free as claimed. -/
theorem build_aht_df_raises_on_infinity :
    build_aht_df [[("avg_handle_time", .vStr "inf")]] = .error .overflowError := rfl

/-- C3 (amended): `{avg_handle_time: "125"}` normalizes to a handle time
of 125.0; a successful run returns exactly the rows of the records whose
handle time resolved to a number surviving `dropna` (so records with no
coercible alias are absent); and the normalizer raises no exception
unless some record's handle time coerces to an infinite float. -/
theorem build_aht_df_normalizes :
    ((build_aht_df [[("avg_handle_time", .vStr "125")]]).toOption.map
      (List.map Row.avg_handle_time_sec) = some [some (.fin ⟨125, 1⟩)]) ∧
    (∀ (items : List PyDict) (rows : List Row), build_aht_df items = .ok rows →
      rows = (items.filter (fun it => keepRow (rowCore it))).map rowCore) ∧
    (∀ items : List PyDict,
      (∀ it ∈ items, resolveAht it ≠ some .pinf ∧ resolveAht it ≠ some .ninf) →
      ∃ rows, build_aht_df items = .ok rows) := by
  refine ⟨rfl, build_aht_df_ok_eq, ?_⟩
  intro items hfin
  induction items with
  | nil => exact ⟨[], rfl⟩
  | cons it rest ih =>
    obtain ⟨rows, hr⟩ := ih (fun x hx => hfin x (List.mem_cons_of_mem _ hx))
    have h1 := hfin it (List.mem_cons_self _ _)
    have hok : ∃ r, mkRow it = .ok r := by
      unfold mkRow
      cases ha : resolveAht it with
      | none => exact ⟨_, rfl⟩
      | some n =>
        cases n with
        | fin q => exact ⟨_, rfl⟩
        | pinf => exact absurd ha h1.1
        | ninf => exact absurd ha h1.2
        | nan => exact ⟨_, rfl⟩
    obtain ⟨r, hrok⟩ := hok
    unfold build_aht_df at hr ⊢
    cases hm : mapExcept mkRow rest with
    | error e => rw [hm] at hr; simp at hr
    | ok rs =>
      simp only [mapExcept, hrok, hm]
      exact ⟨_, rfl⟩

/-- Witness for amended C3: a finite handle time string yields a
successful normalization. -/
theorem build_aht_df_normalizes_witness :
    ∃ rows, build_aht_df [[("avg_handle_time", .vStr "125")]] = .ok rows :=
  build_aht_df_normalizes.2.2 [[("avg_handle_time", .vStr "125")]]
    (by intro it hit
        rw [List.mem_singleton] at hit
        subst hit
        exact ⟨by decide, by decide⟩)

/-- C7 counterexample: renormalizing an already-normalized record list
does not reproduce the queue-name values — the first pass yields the
queue name "Sales", the second pass yields no rows at all, because the
canonical output name `avg_handle_time_sec` is not among the
handle-time aliases, so every re-fed row loses its handle time and is
dropped. -/
theorem renormalize_loses_rows_counterexample :
    ((build_aht_df [[("queue_id", .vStr "1"), ("queue_name", .vStr "Sales"),
        ("avg_handle_time", .vNum (.fin ⟨300, 1⟩))]]).toOption.map
      (List.map Row.queue_name) = some [.vStr "Sales"]) ∧
    ((build_aht_df [[("queue_id", .vStr "1"), ("queue_name", .vStr "Sales"),
        ("avg_handle_time", .vNum (.fin ⟨300, 1⟩))]]).toOption.bind
      (fun rows => (build_aht_df (rows.map rowToRaw)).toOption.map
        (List.map Row.queue_name)) = some []) :=
  ⟨rfl, rfl⟩

/-- C7 (amended): alias re-extraction is idempotent for the two fields
whose canonical names appear in their own alias lists — `queue_id` is
recovered exactly, and `queue_name` is recovered whenever it is truthy
(which every normalizer output satisfies) — but a full second
`normalize` pass over row-shaped records always returns the empty list,
because the canonical handle-time name is not a handle-time alias. -/
theorem renormalize_field_idempotence :
    (∀ r : Row, pick_first (rowToRaw r) idAliases = r.queue_id) ∧
    (∀ r : Row, truthy r.queue_name = true → qNameOf (rowToRaw r) = r.queue_name) ∧
    (∀ rows : List Row, build_aht_df (rows.map rowToRaw) = .ok []) := by
  refine ⟨?_, ?_, ?_⟩
  · intro r
    cases hq : r.queue_id <;> simp only [rowToRaw, hq] <;> rfl
  · intro r
    cases hq : r.queue_name <;> intro ht
    case vNull => simp [rowToRaw, hq, truthy] at ht
    all_goals
      simp only [rowToRaw, hq] at ht ⊢
      simp [qNameOf, pick_first, dictGet, pyOr, ht]
  · intro rows
    induction rows with
    | nil => rfl
    | cons r rest ih =>
      have hm : mkRow (rowToRaw r) = .ok (rowCore (rowToRaw r)) := rfl
      have hk : keepRow (rowCore (rowToRaw r)) = false := rfl
      unfold build_aht_df at ih ⊢
      cases hm2 : mapExcept mkRow (rest.map rowToRaw) with
      | error e => rw [hm2] at ih; simp at ih
      | ok rs =>
        rw [hm2] at ih
        simp only at ih
        rw [List.map_cons]
        simp only [mapExcept, hm, hm2]
        simp [List.filter_cons, hk, ih]

/-- Witness for amended C7: a truthy queue name round-trips through the
row-as-record view. -/
theorem renormalize_field_idempotence_witness :
    qNameOf (rowToRaw ⟨.vNull, .vStr "Sales", none, none, none⟩) = .vStr "Sales" :=
  renormalize_field_idempotence.2.1 ⟨.vNull, .vStr "Sales", none, none, none⟩ rfl

/-- Removing one key leaves lookups of other keys unchanged. -/
theorem lookupTok_removeTok (c c' : Creds) (h : c' ≠ c) :
    ∀ cache : TokenCache, lookupTok (removeTok cache c) c' = lookupTok cache c' := by
  intro cache
  induction cache with
  | nil => rfl
  | cons e rest ih =>
    obtain ⟨ce, te⟩ := e
    by_cases hc : ce = c
    · subst hc
      have hne : ¬ ce = c' := fun hh => h hh.symm
      simp [removeTok, lookupTok, ih, hne]
    · by_cases hce : ce = c'
      · subst hce
        simp [removeTok, lookupTok, hc]
      · simp [removeTok, lookupTok, hc, hce, ih]

/-- A fresh (non-expired) cached token is returned without a network
call. -/
theorem getToken_hit (c : Creds) (now : Nat) (post : TokenReq → PageResp)
    (cache : TokenCache) (t : Token)
    (h : lookupTok cache c = some t) (hv : now < t.issuedAt + tokenTTL) :
    getToken c now post cache = (.ok t, cache, false) := by
  simp [getToken, h, hv]

/-- On a cache miss the exchange runs and, on success, the token is
stored stamped with the current time. -/
theorem getToken_miss (c : Creds) (now : Nat) (post : TokenReq → PageResp)
    (cache : TokenCache)
    (h : lookupTok cache c = none) :
    getToken c now post cache =
      (match get_access_token c.account_id c.client_id c.client_secret post with
       | (.error e, reqs) => (.error e, cache, !reqs.isEmpty)
       | (.ok v, _) =>
         (.ok ⟨v, now⟩, (c, (⟨v, now⟩ : Token)) :: removeTok cache c, true)) := by
  simp [getToken, h]

/-- An expired cached token triggers a fresh exchange. -/
theorem getToken_expired (c : Creds) (now : Nat) (post : TokenReq → PageResp)
    (cache : TokenCache) (t : Token)
    (h : lookupTok cache c = some t) (hv : ¬ now < t.issuedAt + tokenTTL) :
    getToken c now post cache =
      (match get_access_token c.account_id c.client_id c.client_secret post with
       | (.error e, reqs) => (.error e, cache, !reqs.isEmpty)
       | (.ok v, _) =>
         (.ok ⟨v, now⟩, (c, (⟨v, now⟩ : Token)) :: removeTok cache c, true)) := by
  simp [getToken, h, hv]

/-- C5: under the modelled `st.cache_data(ttl=3300)` semantics, a first
call with valid credentials on a cache miss stores a token stamped with
the call time and hits the network; every call within the ttl window
returns that same token without a network call and leaves the cache
unchanged; a call at or after expiry hits the network again and, on
success, returns a token distinct from the first; and the cache is
keyed by the exact credentials tuple (other keys are untouched). -/
theorem getToken_ttl_caching (c : Creds) (post : TokenReq → PageResp)
    (cache : TokenCache) (t1 : Nat) (tok1 : Token) (cache1 : TokenCache) (called1 : Bool)
    (_hvalid : c.account_id ≠ "" ∧ c.client_id ≠ "" ∧ c.client_secret ≠ "")
    (hmiss : lookupTok cache c = none)
    (h1 : getToken c t1 post cache = (.ok tok1, cache1, called1)) :
    tok1.issuedAt = t1 ∧ called1 = true ∧
    (∀ t2, t2 < t1 + tokenTTL → getToken c t2 post cache1 = (.ok tok1, cache1, false)) ∧
    (∀ t3, t1 + tokenTTL ≤ t3 →
      (getToken c t3 post cache1).2.2 = true ∧
      ∀ tok3, (getToken c t3 post cache1).1 = .ok tok3 →
        tok3.issuedAt = t3 ∧ tok3 ≠ tok1) ∧
    (∀ c', c' ≠ c → lookupTok cache1 c' = lookupTok cache c') := by
  rw [getToken_miss c t1 post cache hmiss] at h1
  cases hex : get_access_token c.account_id c.client_id c.client_secret post with
  | mk res reqs =>
    rw [hex] at h1
    cases res with
    | error e => simp at h1
    | ok v =>
      simp only [Prod.mk.injEq, Except.ok.injEq] at h1
      obtain ⟨h1a, h1b, h1c⟩ := h1
      subst h1a
      subst h1b
      subst h1c
      have hlook : lookupTok ((c, (⟨v, t1⟩ : Token)) :: removeTok cache c) c =
          some ⟨v, t1⟩ := by
        simp [lookupTok]
      refine ⟨rfl, rfl, ?_, ?_, ?_⟩
      · intro t2 ht2
        exact getToken_hit c t2 post _ _ hlook ht2
      · intro t3 ht3
        have hnv : ¬ t3 < (⟨v, t1⟩ : Token).issuedAt + tokenTTL := by
          show ¬ t3 < t1 + tokenTTL
          omega
        rw [getToken_expired c t3 post _ _ hlook hnv]
        rw [hex]
        refine ⟨rfl, ?_⟩
        intro tok3 h3
        simp only [Except.ok.injEq] at h3
        subst h3
        refine ⟨rfl, ?_⟩
        intro hh
        have hts : t3 = t1 := congrArg Token.issuedAt hh
        have httl : tokenTTL = 3300 := rfl
        omega
      · intro c' hne
        show lookupTok ((c, (⟨v, t1⟩ : Token)) :: removeTok cache c) c' = lookupTok cache c'
        simp only [lookupTok]
        rw [if_neg (fun hh => hne hh.symm)]
        exact lookupTok_removeTok c c' hne cache

/-- Witness for C5 at concrete credentials and times: the first call at
time 0 misses, the call at time 100 returns the cached token with no
network call. -/
theorem getToken_ttl_caching_witness :
    getToken ⟨"a", "x", "y"⟩ 100 (fun _ => ⟨200, [("access_token", .vStr "T")]⟩)
        [(⟨"a", "x", "y"⟩, ⟨.vStr "T", 0⟩)] =
      (.ok ⟨.vStr "T", 0⟩, [(⟨"a", "x", "y"⟩, ⟨.vStr "T", 0⟩)], false) :=
  (getToken_ttl_caching ⟨"a", "x", "y"⟩ (fun _ => ⟨200, [("access_token", .vStr "T")]⟩)
      [] 0 ⟨.vStr "T", 0⟩ [(⟨"a", "x", "y"⟩, ⟨.vStr "T", 0⟩)] true
      ⟨by decide, by decide, by decide⟩ rfl rfl).2.2.1 100 (by decide)

/-- `raise_for_status` passes on every status below 400. -/
theorem raisesForStatus_of_lt {s : Nat} (h : s < 400) : raisesForStatus s = false := by
  unfold raisesForStatus
  have h4 : decide (400 ≤ s) = false := by
    simp only [decide_eq_false_iff_not]
    omega
  rw [h4, Bool.false_and]

/-- `raise_for_status` raises exactly on 4xx/5xx. -/
theorem raisesForStatus_of_err {s : Nat} (h4 : 400 ≤ s) (h6 : s < 600) :
    raisesForStatus s = true := by
  simp [raisesForStatus, h4, h6]

/-- One loop step on a passing page with a truthy cursor: accumulate
and continue at the next page. -/
theorem fetchGo_step_cont (ps : Nat → PageResp) (dfrom dto : String) (p : Int)
    (tok : Value) (acc : List Value) (i fuel : Nat)
    (hst : raisesForStatus (ps i).status = false)
    (l : List Value) (hl : extractValue (ps i).body = .vList l)
    (ht : truthy (pyGet (ps i).body "next_page_token") = true) :
    (fetchGo ps dfrom dto p tok acc i (fuel + 1)).2 =
      (fetchGo ps dfrom dto p (pyGet (ps i).body "next_page_token")
        (acc ++ l) (i + 1) fuel).2 := by
  simp [fetchGo, hst, hl, extendItems, ht]

/-- One loop step on a passing page with a falsy cursor: the loop
returns the accumulator. -/
theorem fetchGo_step_stop (ps : Nat → PageResp) (dfrom dto : String) (p : Int)
    (tok : Value) (acc : List Value) (i fuel : Nat)
    (hst : raisesForStatus (ps i).status = false)
    (l : List Value) (hl : extractValue (ps i).body = .vList l)
    (ht : truthy (pyGet (ps i).body "next_page_token") = false) :
    (fetchGo ps dfrom dto p tok acc i (fuel + 1)).2 = some (.ok (acc ++ l)) := by
  simp [fetchGo, hst, hl, extendItems, ht]

/-- One loop step on a 4xx/5xx page: the fetch aborts with the
`HTTPError` carrying that status and body. -/
theorem fetchGo_step_raise (ps : Nat → PageResp) (dfrom dto : String) (p : Int)
    (tok : Value) (acc : List Value) (i fuel : Nat)
    (hst : raisesForStatus (ps i).status = true) :
    (fetchGo ps dfrom dto p tok acc i (fuel + 1)).2 =
      some (.error (.apiError (ps i).status (ps i).body)) := by
  simp [fetchGo, hst]

/-- With pages `i..i+M` passing, cursors truthy strictly before `i+M`
and falsy at `i+M`, the loop returns the accumulator extended with the
concatenation of those pages' record lists. -/
theorem fetchGo_concat (ps : Nat → PageResp) (dfrom dto : String) (p : Int) :
    ∀ (M i : Nat) (tok : Value) (acc : List Value) (fuel : Nat), M < fuel →
      (∀ j, j ≤ M → (ps (i + j)).status < 400 ∧
        ∃ l, extractValue (ps (i + j)).body = .vList l) →
      (∀ j, j < M → truthy (pyGet (ps (i + j)).body "next_page_token") = true) →
      truthy (pyGet (ps (i + M)).body "next_page_token") = false →
      (fetchGo ps dfrom dto p tok acc i fuel).2 =
        some (.ok (acc ++ pagesConcat ps i (M + 1))) := by
  intro M
  induction M with
  | zero =>
    intro i tok acc fuel hf hgood _ hstop
    cases fuel with
    | zero => omega
    | succ n =>
      obtain ⟨hs, l, hl⟩ := hgood 0 (Nat.le_refl 0)
      rw [Nat.add_zero] at hs hl
      rw [Nat.add_zero] at hstop
      rw [fetchGo_step_stop ps dfrom dto p tok acc i n (raisesForStatus_of_lt hs) l hl hstop]
      simp [pagesConcat, pageItems, hl]
  | succ m ih =>
    intro i tok acc fuel hf hgood hcurs hstop
    cases fuel with
    | zero => omega
    | succ n =>
      obtain ⟨hs, l, hl⟩ := hgood 0 (Nat.zero_le _)
      rw [Nat.add_zero] at hs hl
      have ht0 := hcurs 0 (Nat.succ_pos m)
      rw [Nat.add_zero] at ht0
      rw [fetchGo_step_cont ps dfrom dto p tok acc i n (raisesForStatus_of_lt hs) l hl ht0]
      have he : ∀ j, i + 1 + j = i + (j + 1) := fun j => by omega
      have ihr := ih (i + 1) (pyGet (ps i).body "next_page_token") (acc ++ l) n (by omega)
        (fun j hj => by rw [he j]; exact hgood (j + 1) (by omega))
        (fun j hj => by rw [he j]; exact hcurs (j + 1) (by omega))
        (by rw [he m]; exact hstop)
      rw [ihr]
      simp [pagesConcat, pageItems, hl, List.append_assoc]

/-- If every page passes with a list of records and a truthy cursor,
the loop never ends: every fuel bound is exhausted. -/
theorem fetchGo_diverge (ps : Nat → PageResp) (dfrom dto : String) (p : Int)
    (hgood : ∀ i, (ps i).status < 400 ∧ ∃ l, extractValue (ps i).body = .vList l)
    (hcurs : ∀ i, truthy (pyGet (ps i).body "next_page_token") = true) :
    ∀ (fuel i : Nat) (tok : Value) (acc : List Value),
      (fetchGo ps dfrom dto p tok acc i fuel).2 = none := by
  intro fuel
  induction fuel with
  | zero => intro i tok acc; rfl
  | succ n ih =>
    intro i tok acc
    obtain ⟨hs, l, hl⟩ := hgood i
    rw [fetchGo_step_cont ps dfrom dto p tok acc i n (raisesForStatus_of_lt hs) l hl (hcurs i)]
    exact ih _ _ _

/-- If every page passes with a list of records and some page carries a
falsy cursor, the loop ends within that many steps. -/
theorem fetchGo_term (ps : Nat → PageResp) (dfrom dto : String) (p : Int)
    (hgood : ∀ i, (ps i).status < 400 ∧ ∃ l, extractValue (ps i).body = .vList l) :
    ∀ (k i : Nat) (tok : Value) (acc : List Value) (fuel : Nat), k < fuel →
      truthy (pyGet (ps (i + k)).body "next_page_token") = false →
      ((fetchGo ps dfrom dto p tok acc i fuel).2).isSome = true := by
  intro k
  induction k with
  | zero =>
    intro i tok acc fuel hf hstop
    cases fuel with
    | zero => omega
    | succ n =>
      obtain ⟨hs, l, hl⟩ := hgood i
      rw [Nat.add_zero] at hstop
      rw [fetchGo_step_stop ps dfrom dto p tok acc i n (raisesForStatus_of_lt hs) l hl hstop]
      rfl
  | succ m ih =>
    intro i tok acc fuel hf hstop
    cases fuel with
    | zero => omega
    | succ n =>
      obtain ⟨hs, l, hl⟩ := hgood i
      cases htr : truthy (pyGet (ps i).body "next_page_token") with
      | false =>
        rw [fetchGo_step_stop ps dfrom dto p tok acc i n (raisesForStatus_of_lt hs) l hl htr]
        rfl
      | true =>
        rw [fetchGo_step_cont ps dfrom dto p tok acc i n (raisesForStatus_of_lt hs) l hl htr]
        apply ih (i + 1) _ _ n (by omega)
        have he : i + 1 + m = i + (m + 1) := by omega
        rw [he]
        exact hstop

/-- C1: for a finite stream of `N` pages that all return 2xx with a
record list, cursors truthy on all but the final page and falsy there,
the fetch returns the concatenation of the `N` pages' record lists in
retrieval order (for any sufficient fuel); and over an all-2xx stream
the pagination loop terminates iff some page eventually carries a falsy
(absent or empty) `next_page_token`. -/
theorem fetchAllPages_pagination (ps : Nat → PageResp) (dfrom dto : String) (p : Int) :
    (∀ N : Nat, 0 < N →
      (∀ j, j < N → (200 ≤ (ps j).status ∧ (ps j).status < 300) ∧
        ∃ l, extractValue (ps j).body = .vList l) →
      (∀ j, j < N - 1 → truthy (pyGet (ps j).body "next_page_token") = true) →
      truthy (pyGet (ps (N - 1)).body "next_page_token") = false →
      ∀ fuel, N ≤ fuel →
        (list_call_queue_analytics ps dfrom dto p fuel).2 =
          some (.ok (pagesConcat ps 0 N))) ∧
    ((∀ i, (200 ≤ (ps i).status ∧ (ps i).status < 300) ∧
        ∃ l, extractValue (ps i).body = .vList l) →
      ((∃ fuel, ((list_call_queue_analytics ps dfrom dto p fuel).2).isSome = true) ↔
        ∃ k, truthy (pyGet (ps k).body "next_page_token") = false)) := by
  constructor
  · intro N hN hgood hcurs hstop fuel hfuel
    obtain ⟨M, rfl⟩ : ∃ M, N = M + 1 := ⟨N - 1, by omega⟩
    have hc := fetchGo_concat ps dfrom dto p M 0 .vNull [] fuel (by omega)
      (fun j hj => by
        rw [Nat.zero_add]
        obtain ⟨⟨_, h3⟩, hl⟩ := hgood j (by omega)
        exact ⟨by omega, hl⟩)
      (fun j hj => by
        rw [Nat.zero_add]
        exact hcurs j (by simpa using hj))
      (by rw [Nat.zero_add]; simpa using hstop)
    unfold list_call_queue_analytics
    rw [hc]
    simp
  · intro hall
    constructor
    · intro hterm
      by_contra hno
      push_neg at hno
      simp only [Bool.not_eq_false] at hno
      obtain ⟨fuel, hsome⟩ := hterm
      have hdiv := fetchGo_diverge ps dfrom dto p
        (fun i => ⟨by have := (hall i).1; omega, (hall i).2⟩) hno fuel 0 .vNull []
      unfold list_call_queue_analytics at hsome
      rw [hdiv] at hsome
      cases hsome
    · intro hstop
      obtain ⟨k, hk⟩ := hstop
      refine ⟨k + 1, ?_⟩
      unfold list_call_queue_analytics
      exact fetchGo_term ps dfrom dto p
        (fun i => ⟨by have := (hall i).1; omega, (hall i).2⟩)
        k 0 .vNull [] (k + 1) (by omega) (by rw [Nat.zero_add]; exact hk)

/-- Witness for C1: a two-page stream (analytics on page 0 with a
cursor, queues on page 1 without) concatenates both pages' records in
order. -/
theorem fetchAllPages_pagination_witness :
    (list_call_queue_analytics
        (fun i => match i with
          | 0 => ⟨200, [("analytics", .vList [.vDict [("queue_id", .vStr "1")]]),
                        ("next_page_token", .vStr "t1")]⟩
          | _ => ⟨200, [("queues", .vList [.vDict [("queue_id", .vStr "2")]])]⟩)
        "f" "t" 100 2).2 =
      some (.ok [.vDict [("queue_id", .vStr "1")], .vDict [("queue_id", .vStr "2")]]) :=
  (fetchAllPages_pagination
      (fun i => match i with
        | 0 => ⟨200, [("analytics", .vList [.vDict [("queue_id", .vStr "1")]]),
                      ("next_page_token", .vStr "t1")]⟩
        | _ => ⟨200, [("queues", .vList [.vDict [("queue_id", .vStr "2")]])]⟩)
      "f" "t" 100).1 2 (by decide)
    (by intro j hj
        match j with
        | 0 => exact ⟨⟨Nat.le_refl 200, (by decide : (200 : Nat) < 300)⟩, _, rfl⟩
        | j' + 1 => exact ⟨⟨Nat.le_refl 200, (by decide : (200 : Nat) < 300)⟩, _, rfl⟩)
    (by intro j hj
        match j, hj with
        | 0, _ => rfl)
    rfl 2 (Nat.le_refl 2)

/-- C8 counterexample: a page answering 304 (non-2xx but below 400)
does not abort the fetch — `raise_for_status` only raises on 4xx/5xx —
so the claim stated for every non-2xx status fails: the fetch returns
an ordinary (empty) record list instead of an `ApiError(304, ...)`. -/
theorem non2xx_no_apiError_counterexample :
    (list_call_queue_analytics (fun _ => ⟨304, []⟩) "f" "t" 100 1).2 =
      some (.ok []) := rfl

/-- C8 (amended): if the pages before `k` return 2xx with record lists
and truthy cursors and page `k` returns a 4xx/5xx status, the fetch
aborts at page `k` with `ApiError` carrying that status and body — no
partial accumulator is returned — and the failure propagates unchanged
through the orchestrator. -/
theorem fetch_aborts_on_http_error (ps : Nat → PageResp) (dfrom dto : String)
    (p : Int) (k : Nat)
    (hgood : ∀ j, j < k → ((200 ≤ (ps j).status ∧ (ps j).status < 300) ∧
        ∃ l, extractValue (ps j).body = .vList l) ∧
        truthy (pyGet (ps j).body "next_page_token") = true)
    (h4 : 400 ≤ (ps k).status) (h6 : (ps k).status < 600)
    (fuel : Nat) (hfuel : k < fuel) :
    (list_call_queue_analytics ps dfrom dto p fuel).2 =
      some (.error (.apiError (ps k).status (ps k).body)) ∧
    ∀ (c : Creds) (now : Nat) (post : TokenReq → PageResp) (cache : TokenCache)
      (tok : Token), (getToken c now post cache).1 = .ok tok →
      run c now post cache ps dfrom dto p fuel =
        some (.error (.apiError (ps k).status (ps k).body)) := by
  have herr : ∀ (k' i : Nat) (tok : Value) (acc : List Value) (fuel' : Nat),
      k' < fuel' →
      (∀ j, j < k' → ((ps (i + j)).status < 400 ∧
          ∃ l, extractValue (ps (i + j)).body = .vList l) ∧
          truthy (pyGet (ps (i + j)).body "next_page_token") = true) →
      400 ≤ (ps (i + k')).status → (ps (i + k')).status < 600 →
      (fetchGo ps dfrom dto p tok acc i fuel').2 =
        some (.error (.apiError (ps (i + k')).status (ps (i + k')).body)) := by
    intro k'
    induction k' with
    | zero =>
      intro i tok acc fuel' hf _ ha hb
      cases fuel' with
      | zero => omega
      | succ n =>
        simp only [Nat.add_zero] at ha hb ⊢
        rw [fetchGo_step_raise ps dfrom dto p tok acc i n (raisesForStatus_of_err ha hb)]
    | succ m ih =>
      intro i tok acc fuel' hf hg ha hb
      cases fuel' with
      | zero => omega
      | succ n =>
        obtain ⟨⟨hs, l, hl⟩, ht⟩ := hg 0 (Nat.succ_pos m)
        rw [Nat.add_zero] at hs hl ht
        rw [fetchGo_step_cont ps dfrom dto p tok acc i n (raisesForStatus_of_lt hs) l hl ht]
        have he : ∀ j, i + 1 + j = i + (j + 1) := fun j => by omega
        have ihr := ih (i + 1) (pyGet (ps i).body "next_page_token") (acc ++ l) n
          (by omega)
          (fun j hj => by rw [he j]; exact hg (j + 1) (by omega))
          (by rw [he m]; exact ha) (by rw [he m]; exact hb)
        rw [ihr, he m]
  have hfetch : (list_call_queue_analytics ps dfrom dto p fuel).2 =
      some (.error (.apiError (ps k).status (ps k).body)) := by
    unfold list_call_queue_analytics
    have := herr k 0 .vNull [] fuel hfuel
      (fun j hj => by
        rw [Nat.zero_add]
        obtain ⟨⟨⟨_, h3⟩, hl⟩, ht⟩ := hgood j hj
        exact ⟨⟨by omega, hl⟩, ht⟩)
      (by rw [Nat.zero_add]; exact h4) (by rw [Nat.zero_add]; exact h6)
    rw [this, Nat.zero_add]
  refine ⟨hfetch, ?_⟩
  intro c now post cache tok htok
  unfold run
  rw [htok, hfetch]

/-- Witness for amended C8: a single 500 page aborts the run with the
`ApiError` carrying status 500 and the response body. -/
theorem fetch_aborts_on_http_error_witness :
    run ⟨"a", "x", "y"⟩ 0 (fun _ => ⟨200, [("access_token", .vStr "T")]⟩) []
        (fun _ => ⟨500, [("detail", .vStr "boom")]⟩) "f" "t" 100 1 =
      some (.error (.apiError 500 [("detail", .vStr "boom")])) :=
  (fetch_aborts_on_http_error (fun _ => ⟨500, [("detail", .vStr "boom")]⟩) "f" "t"
      100 0 (fun j hj => absurd hj (Nat.not_lt_zero j)) (by decide) (by decide)
      1 (by decide)).2
    ⟨"a", "x", "y"⟩ 0 (fun _ => ⟨200, [("access_token", .vStr "T")]⟩) []
    ⟨.vStr "T", 0⟩ rfl

end ZoomAHT
